import Mathlib

/-!
Shallow embedding of `src/embedded_ascii.h` (monochrome bitmap-font rendering).

Characters are modelled as `Int` (the C `char` argument under the usual
arithmetic comparisons), colors as `Nat` (the C `uint8_t` / `uint16_t` color
values), framebuffers as total functions `Int → Nat` from flat index to pixel
value, and the callback-based drawing functions as the finite trace of
pixel-callback invocations they perform, in source order.
-/

namespace EmbeddedAscii

/-- Width of a single font character in pixels (`ASCII_FONT_WIDTH`). -/
def ASCII_FONT_WIDTH : Nat := 8

/-- Height of a single font character in pixels (`ASCII_FONT_HEIGHT`). -/
def ASCII_FONT_HEIGHT : Nat := 8

/-- ASCII code of the first character in the font table (`ASCII_FIRST_CHAR`, space). -/
def ASCII_FIRST_CHAR : Int := 32

/-- ASCII code one past the last character of the font table (`ASCII_LAST_CHAR`, DEL). -/
def ASCII_LAST_CHAR : Int := 127

/-- The font table `ascii_font`: `ASCII_CHAR_COUNT = 95` glyphs for codes
32..126, each glyph a list of `ASCII_FONT_HEIGHT = 8` row bytes, transcribed
row for row from the source. Only the glyph for '0' (code 48, index 16) has
any bit set. -/
def ascii_font : List (List Nat) := [
  [0x00, 0x00, 0x00, 0x00, 0x00, 0x00, 0x00, 0x00],  -- Space (32)
  [0x00, 0x00, 0x00, 0x00, 0x00, 0x00, 0x00, 0x00],  -- ! (33)
  [0x00, 0x00, 0x00, 0x00, 0x00, 0x00, 0x00, 0x00],  -- " (34)
  [0x00, 0x00, 0x00, 0x00, 0x00, 0x00, 0x00, 0x00],  -- # (35)
  [0x00, 0x00, 0x00, 0x00, 0x00, 0x00, 0x00, 0x00],  -- $ (36)
  [0x00, 0x00, 0x00, 0x00, 0x00, 0x00, 0x00, 0x00],  -- % (37)
  [0x00, 0x00, 0x00, 0x00, 0x00, 0x00, 0x00, 0x00],  -- & (38)
  [0x00, 0x00, 0x00, 0x00, 0x00, 0x00, 0x00, 0x00],  -- ' (39)
  [0x00, 0x00, 0x00, 0x00, 0x00, 0x00, 0x00, 0x00],  -- ( (40)
  [0x00, 0x00, 0x00, 0x00, 0x00, 0x00, 0x00, 0x00],  -- ) (41)
  [0x00, 0x00, 0x00, 0x00, 0x00, 0x00, 0x00, 0x00],  -- * (42)
  [0x00, 0x00, 0x00, 0x00, 0x00, 0x00, 0x00, 0x00],  -- + (43)
  [0x00, 0x00, 0x00, 0x00, 0x00, 0x00, 0x00, 0x00],  -- , (44)
  [0x00, 0x00, 0x00, 0x00, 0x00, 0x00, 0x00, 0x00],  -- - (45)
  [0x00, 0x00, 0x00, 0x00, 0x00, 0x00, 0x00, 0x00],  -- . (46)
  [0x00, 0x00, 0x00, 0x00, 0x00, 0x00, 0x00, 0x00],  -- / (47)
  [0x3E, 0x7F, 0x6B, 0x6B, 0x6B, 0x6B, 0x7F, 0x3E],  -- 0 (48)
  [0x00, 0x00, 0x00, 0x00, 0x00, 0x00, 0x00, 0x00],  -- 1 (49)
  [0x00, 0x00, 0x00, 0x00, 0x00, 0x00, 0x00, 0x00],  -- 2 (50)
  [0x00, 0x00, 0x00, 0x00, 0x00, 0x00, 0x00, 0x00],  -- 3 (51)
  [0x00, 0x00, 0x00, 0x00, 0x00, 0x00, 0x00, 0x00],  -- 4 (52)
  [0x00, 0x00, 0x00, 0x00, 0x00, 0x00, 0x00, 0x00],  -- 5 (53)
  [0x00, 0x00, 0x00, 0x00, 0x00, 0x00, 0x00, 0x00],  -- 6 (54)
  [0x00, 0x00, 0x00, 0x00, 0x00, 0x00, 0x00, 0x00],  -- 7 (55)
  [0x00, 0x00, 0x00, 0x00, 0x00, 0x00, 0x00, 0x00],  -- 8 (56)
  [0x00, 0x00, 0x00, 0x00, 0x00, 0x00, 0x00, 0x00],  -- 9 (57)
  [0x00, 0x00, 0x00, 0x00, 0x00, 0x00, 0x00, 0x00],  -- : (58)
  [0x00, 0x00, 0x00, 0x00, 0x00, 0x00, 0x00, 0x00],  -- ; (59)
  [0x00, 0x00, 0x00, 0x00, 0x00, 0x00, 0x00, 0x00],  -- < (60)
  [0x00, 0x00, 0x00, 0x00, 0x00, 0x00, 0x00, 0x00],  -- = (61)
  [0x00, 0x00, 0x00, 0x00, 0x00, 0x00, 0x00, 0x00],  -- > (62)
  [0x00, 0x00, 0x00, 0x00, 0x00, 0x00, 0x00, 0x00],  -- ? (63)
  [0x00, 0x00, 0x00, 0x00, 0x00, 0x00, 0x00, 0x00],  -- @ (64)
  [0x00, 0x00, 0x00, 0x00, 0x00, 0x00, 0x00, 0x00],  -- A (65)
  [0x00, 0x00, 0x00, 0x00, 0x00, 0x00, 0x00, 0x00],  -- B (66)
  [0x00, 0x00, 0x00, 0x00, 0x00, 0x00, 0x00, 0x00],  -- C (67)
  [0x00, 0x00, 0x00, 0x00, 0x00, 0x00, 0x00, 0x00],  -- D (68)
  [0x00, 0x00, 0x00, 0x00, 0x00, 0x00, 0x00, 0x00],  -- E (69)
  [0x00, 0x00, 0x00, 0x00, 0x00, 0x00, 0x00, 0x00],  -- F (70)
  [0x00, 0x00, 0x00, 0x00, 0x00, 0x00, 0x00, 0x00],  -- G (71)
  [0x00, 0x00, 0x00, 0x00, 0x00, 0x00, 0x00, 0x00],  -- H (72)
  [0x00, 0x00, 0x00, 0x00, 0x00, 0x00, 0x00, 0x00],  -- I (73)
  [0x00, 0x00, 0x00, 0x00, 0x00, 0x00, 0x00, 0x00],  -- J (74)
  [0x00, 0x00, 0x00, 0x00, 0x00, 0x00, 0x00, 0x00],  -- K (75)
  [0x00, 0x00, 0x00, 0x00, 0x00, 0x00, 0x00, 0x00],  -- L (76)
  [0x00, 0x00, 0x00, 0x00, 0x00, 0x00, 0x00, 0x00],  -- M (77)
  [0x00, 0x00, 0x00, 0x00, 0x00, 0x00, 0x00, 0x00],  -- N (78)
  [0x00, 0x00, 0x00, 0x00, 0x00, 0x00, 0x00, 0x00],  -- O (79)
  [0x00, 0x00, 0x00, 0x00, 0x00, 0x00, 0x00, 0x00],  -- P (80)
  [0x00, 0x00, 0x00, 0x00, 0x00, 0x00, 0x00, 0x00],  -- Q (81)
  [0x00, 0x00, 0x00, 0x00, 0x00, 0x00, 0x00, 0x00],  -- R (82)
  [0x00, 0x00, 0x00, 0x00, 0x00, 0x00, 0x00, 0x00],  -- S (83)
  [0x00, 0x00, 0x00, 0x00, 0x00, 0x00, 0x00, 0x00],  -- T (84)
  [0x00, 0x00, 0x00, 0x00, 0x00, 0x00, 0x00, 0x00],  -- U (85)
  [0x00, 0x00, 0x00, 0x00, 0x00, 0x00, 0x00, 0x00],  -- V (86)
  [0x00, 0x00, 0x00, 0x00, 0x00, 0x00, 0x00, 0x00],  -- W (87)
  [0x00, 0x00, 0x00, 0x00, 0x00, 0x00, 0x00, 0x00],  -- X (88)
  [0x00, 0x00, 0x00, 0x00, 0x00, 0x00, 0x00, 0x00],  -- Y (89)
  [0x00, 0x00, 0x00, 0x00, 0x00, 0x00, 0x00, 0x00],  -- Z (90)
  [0x00, 0x00, 0x00, 0x00, 0x00, 0x00, 0x00, 0x00],  -- [ (91)
  [0x00, 0x00, 0x00, 0x00, 0x00, 0x00, 0x00, 0x00],  -- backslash (92)
  [0x00, 0x00, 0x00, 0x00, 0x00, 0x00, 0x00, 0x00],  -- ] (93)
  [0x00, 0x00, 0x00, 0x00, 0x00, 0x00, 0x00, 0x00],  -- ^ (94)
  [0x00, 0x00, 0x00, 0x00, 0x00, 0x00, 0x00, 0x00],  -- _ (95)
  [0x00, 0x00, 0x00, 0x00, 0x00, 0x00, 0x00, 0x00],  -- ` (96)
  [0x00, 0x00, 0x00, 0x00, 0x00, 0x00, 0x00, 0x00],  -- a (97)
  [0x00, 0x00, 0x00, 0x00, 0x00, 0x00, 0x00, 0x00],  -- b (98)
  [0x00, 0x00, 0x00, 0x00, 0x00, 0x00, 0x00, 0x00],  -- c (99)
  [0x00, 0x00, 0x00, 0x00, 0x00, 0x00, 0x00, 0x00],  -- d (100)
  [0x00, 0x00, 0x00, 0x00, 0x00, 0x00, 0x00, 0x00],  -- e (101)
  [0x00, 0x00, 0x00, 0x00, 0x00, 0x00, 0x00, 0x00],  -- f (102)
  [0x00, 0x00, 0x00, 0x00, 0x00, 0x00, 0x00, 0x00],  -- g (103)
  [0x00, 0x00, 0x00, 0x00, 0x00, 0x00, 0x00, 0x00],  -- h (104)
  [0x00, 0x00, 0x00, 0x00, 0x00, 0x00, 0x00, 0x00],  -- i (105)
  [0x00, 0x00, 0x00, 0x00, 0x00, 0x00, 0x00, 0x00],  -- j (106)
  [0x00, 0x00, 0x00, 0x00, 0x00, 0x00, 0x00, 0x00],  -- k (107)
  [0x00, 0x00, 0x00, 0x00, 0x00, 0x00, 0x00, 0x00],  -- l (108)
  [0x00, 0x00, 0x00, 0x00, 0x00, 0x00, 0x00, 0x00],  -- m (109)
  [0x00, 0x00, 0x00, 0x00, 0x00, 0x00, 0x00, 0x00],  -- n (110)
  [0x00, 0x00, 0x00, 0x00, 0x00, 0x00, 0x00, 0x00],  -- o (111)
  [0x00, 0x00, 0x00, 0x00, 0x00, 0x00, 0x00, 0x00],  -- p (112)
  [0x00, 0x00, 0x00, 0x00, 0x00, 0x00, 0x00, 0x00],  -- q (113)
  [0x00, 0x00, 0x00, 0x00, 0x00, 0x00, 0x00, 0x00],  -- r (114)
  [0x00, 0x00, 0x00, 0x00, 0x00, 0x00, 0x00, 0x00],  -- s (115)
  [0x00, 0x00, 0x00, 0x00, 0x00, 0x00, 0x00, 0x00],  -- t (116)
  [0x00, 0x00, 0x00, 0x00, 0x00, 0x00, 0x00, 0x00],  -- u (117)
  [0x00, 0x00, 0x00, 0x00, 0x00, 0x00, 0x00, 0x00],  -- v (118)
  [0x00, 0x00, 0x00, 0x00, 0x00, 0x00, 0x00, 0x00],  -- w (119)
  [0x00, 0x00, 0x00, 0x00, 0x00, 0x00, 0x00, 0x00],  -- x (120)
  [0x00, 0x00, 0x00, 0x00, 0x00, 0x00, 0x00, 0x00],  -- y (121)
  [0x00, 0x00, 0x00, 0x00, 0x00, 0x00, 0x00, 0x00],  -- z (122)
  [0x00, 0x00, 0x00, 0x00, 0x00, 0x00, 0x00, 0x00],  -- \x7b (123)
  [0x00, 0x00, 0x00, 0x00, 0x00, 0x00, 0x00, 0x00],  -- | (124)
  [0x00, 0x00, 0x00, 0x00, 0x00, 0x00, 0x00, 0x00],  -- \x7d (125)
  [0x00, 0x00, 0x00, 0x00, 0x00, 0x00, 0x00, 0x00]   -- ~ (126)
]

/-- Embedding of `ascii_get_char_bitmap`: for a code outside
`[ASCII_FIRST_CHAR, ASCII_LAST_CHAR)` return `ascii_font[0]`, otherwise the
table entry at index `c - ASCII_FIRST_CHAR`. -/
def ascii_get_char_bitmap (c : Int) : List Nat :=
  if c < ASCII_FIRST_CHAR ∨ ASCII_LAST_CHAR ≤ c then ascii_font.getD 0 []
  else ascii_font.getD (c - ASCII_FIRST_CHAR).toNat []

/-- Embedding of `ascii_draw_char`: the sequence of pixel-callback
invocations `(x + col, y + row, color)` performed by the nested row/column
loops, in source order. The C bit test `bitmap[row] & (1 << (7 - col))`
becomes `bitmap.getD row 0 &&& (1 <<< (7 - col)) != 0`. -/
def ascii_draw_char (c : Int) (x y : Int) (color : Nat) : List (Int × Int × Nat) :=
  let bitmap := ascii_get_char_bitmap c
  (List.range ASCII_FONT_HEIGHT).foldl (fun acc row =>
    (List.range ASCII_FONT_WIDTH).foldl (fun acc2 col =>
      if bitmap.getD row 0 &&& (1 <<< (7 - col)) != 0 then
        acc2 ++ [(x + (col : Int), y + (row : Int), color)]
      else acc2) acc) []

/-- Loop of `ascii_draw_text`: walks the character list, handling the newline
code 10 by resetting the cursor x to `start_x` and advancing the cursor y,
otherwise drawing the character and advancing the cursor x; accumulates the
pixel-callback trace and returns it with the final cursor x. -/
def drawTextLoop (start_x : Int) (color : Nat) :
    List Int → Int → Int → List (Int × Int × Nat) → List (Int × Int × Nat) × Int
  | [], x, _cy, acc => (acc, x)
  | ch :: rest, x, cy, acc =>
    if ch = 10 then
      drawTextLoop start_x color rest start_x (cy + (ASCII_FONT_HEIGHT : Int)) acc
    else
      drawTextLoop start_x color rest (x + (ASCII_FONT_WIDTH : Int)) cy
        (acc ++ ascii_draw_char ch x cy color)

/-- Embedding of `ascii_draw_text`: the trace of pixel callbacks together with
the returned value `x - start_x`. -/
def ascii_draw_text (text : List Int) (x y : Int) (color : Nat) :
    List (Int × Int × Nat) × Int :=
  let r := drawTextLoop x color text x y []
  (r.1, r.2 - x)

/-- Column loop of `ascii_draw_char_to_mono_buffer`: starting at column `col`
with `fuel` iterations remaining, writes `color` at flat index
`py * bw + (x + col)` for every set bit of `rowbits`, stopping (the C `break`)
as soon as `px = x + col` reaches `bw`. -/
def mono_blit_cols (rowbits : Nat) (bw x py : Int) (color : Nat) :
    Nat → Nat → (Int → Nat) → Int → Nat
  | _col, 0, buf => buf
  | col, fuel + 1, buf =>
    if bw ≤ x + (col : Int) then buf
    else
      mono_blit_cols rowbits bw x py color (col + 1) fuel
        (if rowbits &&& (1 <<< (7 - col)) != 0 then
           fun j => if j = py * bw + (x + (col : Int)) then color else buf j
         else buf)

/-- Row loop of `ascii_draw_char_to_mono_buffer`: starting at row `row` with
`fuel` iterations remaining, blits each bitmap row at `py = y + row`, stopping
(the C `break`) as soon as `py` reaches `bh`. -/
def mono_blit_rows (bitmap : List Nat) (bw bh x y : Int) (color : Nat) :
    Nat → Nat → (Int → Nat) → Int → Nat
  | _row, 0, buf => buf
  | row, fuel + 1, buf =>
    if bh ≤ y + (row : Int) then buf
    else
      mono_blit_rows bitmap bw bh x y color (row + 1) fuel
        (mono_blit_cols (bitmap.getD row 0) bw x (y + (row : Int)) color
          0 ASCII_FONT_WIDTH buf)

/-- Embedding of `ascii_draw_char_to_mono_buffer`: rejects an out-of-range
origin, otherwise runs the row/column loops over the glyph bitmap. -/
def ascii_draw_char_to_mono_buffer (c : Int) (buf : Int → Nat)
    (bw bh x y : Int) (color : Nat) : Int → Nat :=
  if x < 0 ∨ y < 0 ∨ bw ≤ x ∨ bh ≤ y then buf
  else mono_blit_rows (ascii_get_char_bitmap c) bw bh x y color 0 ASCII_FONT_HEIGHT buf

/-- Column loop of `ascii_draw_char_to_rgb565_buffer` (textually the same
algorithm as the monochrome variant, kept as its own definition because the
source duplicates the function). -/
def rgb565_blit_cols (rowbits : Nat) (bw x py : Int) (color : Nat) :
    Nat → Nat → (Int → Nat) → Int → Nat
  | _col, 0, buf => buf
  | col, fuel + 1, buf =>
    if bw ≤ x + (col : Int) then buf
    else
      rgb565_blit_cols rowbits bw x py color (col + 1) fuel
        (if rowbits &&& (1 <<< (7 - col)) != 0 then
           fun j => if j = py * bw + (x + (col : Int)) then color else buf j
         else buf)

/-- Row loop of `ascii_draw_char_to_rgb565_buffer`. -/
def rgb565_blit_rows (bitmap : List Nat) (bw bh x y : Int) (color : Nat) :
    Nat → Nat → (Int → Nat) → Int → Nat
  | _row, 0, buf => buf
  | row, fuel + 1, buf =>
    if bh ≤ y + (row : Int) then buf
    else
      rgb565_blit_rows bitmap bw bh x y color (row + 1) fuel
        (rgb565_blit_cols (bitmap.getD row 0) bw x (y + (row : Int)) color
          0 ASCII_FONT_WIDTH buf)

/-- Embedding of `ascii_draw_char_to_rgb565_buffer`. -/
def ascii_draw_char_to_rgb565_buffer (c : Int) (buf : Int → Nat)
    (bw bh x y : Int) (color : Nat) : Int → Nat :=
  if x < 0 ∨ y < 0 ∨ bw ≤ x ∨ bh ≤ y then buf
  else rgb565_blit_rows (ascii_get_char_bitmap c) bw bh x y color 0 ASCII_FONT_HEIGHT buf

/-- The sequence of (flat index, value) stores performed by the column loop of
the monochrome blitter, in execution order. -/
def mono_writes_cols (rowbits : Nat) (bw x py : Int) (color : Nat) :
    Nat → Nat → List (Int × Nat)
  | _col, 0 => []
  | col, fuel + 1 =>
    if bw ≤ x + (col : Int) then []
    else
      (if rowbits &&& (1 <<< (7 - col)) != 0 then
         [(py * bw + (x + (col : Int)), color)]
       else []) ++
      mono_writes_cols rowbits bw x py color (col + 1) fuel

/-- The sequence of stores performed by the row loop of the monochrome
blitter, in execution order. -/
def mono_writes_rows (bitmap : List Nat) (bw bh x y : Int) (color : Nat) :
    Nat → Nat → List (Int × Nat)
  | _row, 0 => []
  | row, fuel + 1 =>
    if bh ≤ y + (row : Int) then []
    else
      mono_writes_cols (bitmap.getD row 0) bw x (y + (row : Int)) color
        0 ASCII_FONT_WIDTH ++
      mono_writes_rows bitmap bw bh x y color (row + 1) fuel

/-- The sequence of stores performed by `ascii_draw_char_to_mono_buffer`. -/
def mono_writes (c : Int) (bw bh x y : Int) (color : Nat) : List (Int × Nat) :=
  if x < 0 ∨ y < 0 ∨ bw ≤ x ∨ bh ≤ y then []
  else mono_writes_rows (ascii_get_char_bitmap c) bw bh x y color 0 ASCII_FONT_HEIGHT

/-- The sequence of stores performed by the column loop of the RGB565
blitter. -/
def rgb565_writes_cols (rowbits : Nat) (bw x py : Int) (color : Nat) :
    Nat → Nat → List (Int × Nat)
  | _col, 0 => []
  | col, fuel + 1 =>
    if bw ≤ x + (col : Int) then []
    else
      (if rowbits &&& (1 <<< (7 - col)) != 0 then
         [(py * bw + (x + (col : Int)), color)]
       else []) ++
      rgb565_writes_cols rowbits bw x py color (col + 1) fuel

/-- The sequence of stores performed by the row loop of the RGB565 blitter. -/
def rgb565_writes_rows (bitmap : List Nat) (bw bh x y : Int) (color : Nat) :
    Nat → Nat → List (Int × Nat)
  | _row, 0 => []
  | row, fuel + 1 =>
    if bh ≤ y + (row : Int) then []
    else
      rgb565_writes_cols (bitmap.getD row 0) bw x (y + (row : Int)) color
        0 ASCII_FONT_WIDTH ++
      rgb565_writes_rows bitmap bw bh x y color (row + 1) fuel

/-- The sequence of stores performed by `ascii_draw_char_to_rgb565_buffer`. -/
def rgb565_writes (c : Int) (bw bh x y : Int) (color : Nat) : List (Int × Nat) :=
  if x < 0 ∨ y < 0 ∨ bw ≤ x ∨ bh ≤ y then []
  else rgb565_writes_rows (ascii_get_char_bitmap c) bw bh x y color 0 ASCII_FONT_HEIGHT

/-- Applies a sequence of (flat index, value) stores to a buffer, first store
first. -/
def applyWrites (ws : List (Int × Nat)) (buf : Int → Nat) : Int → Nat :=
  ws.foldl (fun b p => fun j => if j = p.1 then p.2 else b j) buf

/-- Loop of `ascii_text_width`: carries the running maximum `width` and the
current `line_width`; the newline code 10 folds `line_width` into the maximum
and resets it, any other character adds `ASCII_FONT_WIDTH`. -/
def textWidthLoop : List Int → Int → Int → Int
  | [], width, line_width => if width < line_width then line_width else width
  | ch :: rest, width, line_width =>
    if ch = 10 then
      textWidthLoop rest (if width < line_width then line_width else width) 0
    else textWidthLoop rest width (line_width + (ASCII_FONT_WIDTH : Int))

/-- Embedding of `ascii_text_width`. -/
def ascii_text_width (text : List Int) : Int := textWidthLoop text 0 0

/-- Loop of `ascii_text_height`: adds `ASCII_FONT_HEIGHT` per newline code. -/
def textHeightLoop : List Int → Int → Int
  | [], height => height
  | ch :: rest, height =>
    textHeightLoop rest (if ch = 10 then height + (ASCII_FONT_HEIGHT : Int) else height)

/-- Embedding of `ascii_text_height`. -/
def ascii_text_height (text : List Int) : Int :=
  textHeightLoop text (ASCII_FONT_HEIGHT : Int)

/-! ### Generic fold lemmas -/

/-- A fold that conditionally appends one element per input equals the
filtered, mapped input appended to the accumulator. -/
theorem foldl_ite_append {α β : Type} (p : α → Bool) (e : α → β) :
    ∀ (l : List α) (acc : List β),
      l.foldl (fun a v => if p v then a ++ [e v] else a) acc
        = acc ++ (l.filter p).map e := by
  intro l
  induction l with
  | nil => intro acc; simp
  | cons h t ih =>
      intro acc
      by_cases hp : p h
      · simp [List.foldl_cons, hp, ih]
      · simp [List.foldl_cons, hp, ih]

/-- A fold whose step appends a block per input equals the flattened blocks
appended to the accumulator. -/
theorem foldl_flatten_of_append {α β : Type} (g : List β → α → List β) (f : α → List β)
    (hg : ∀ (a : List β) (v : α), g a v = a ++ f v) :
    ∀ (l : List α) (acc : List β), l.foldl g acc = acc ++ (l.map f).flatten := by
  intro l
  induction l with
  | nil => intro acc; simp
  | cons h t ih => intro acc; simp [List.foldl_cons, hg, ih]

/-! ### Characterization of the callback trace of `ascii_draw_char` -/

/-- A list with no duplicates counts each of its members exactly once (stated
for an arbitrary lawful `BEq` instance). -/
theorem count_eq_one_of_nodup_of_mem {α : Type} [BEq α] [LawfulBEq α] :
    ∀ (l : List α) (a : α), l.Nodup → a ∈ l → l.count a = 1 := by
  intro l
  induction l with
  | nil => intro a _ h; simp at h
  | cons b t ih =>
      intro a hnd hm
      rcases List.mem_cons.1 hm with rfl | hmt
      · rw [List.count_cons_self, List.count_eq_zero.2 (List.nodup_cons.1 hnd).1]
      · have hba : a ≠ b := by
          rintro rfl; exact absurd hmt (List.nodup_cons.1 hnd).1
        rw [List.count_cons_of_ne hba]
        exact ih a (List.nodup_cons.1 hnd).2 hmt

/-- The trace of `ascii_draw_char` is the row-major enumeration of the set
bits of the glyph: rows top to bottom and, within a row, columns left to
right. -/
theorem ascii_draw_char_eq_flatten (c x y : Int) (color : Nat) :
    ascii_draw_char c x y color =
      ((List.range 8).map (fun row : Nat =>
        ((List.range 8).filter
            (fun col : Nat =>
              (ascii_get_char_bitmap c).getD row 0 &&& (1 <<< (7 - col)) != 0)).map
          (fun col : Nat => (x + (col : Int), y + (row : Int), color)))).flatten := by
  have h := foldl_flatten_of_append
      (fun acc (row : Nat) => (List.range ASCII_FONT_WIDTH).foldl (fun acc2 col =>
          if (ascii_get_char_bitmap c).getD row 0 &&& (1 <<< (7 - col)) != 0 then
            acc2 ++ [(x + (col : Int), y + (row : Int), color)]
          else acc2) acc)
      (fun row : Nat => ((List.range ASCII_FONT_WIDTH).filter
          (fun col : Nat =>
            (ascii_get_char_bitmap c).getD row 0 &&& (1 <<< (7 - col)) != 0)).map
        (fun col : Nat => (x + (col : Int), y + (row : Int), color)))
      (fun acc row => foldl_ite_append _ _ _ _)
      (List.range ASCII_FONT_HEIGHT) []
  simpa [ascii_draw_char, ASCII_FONT_HEIGHT, ASCII_FONT_WIDTH] using h

/-- Membership in the trace of `ascii_draw_char`: exactly the pixels
`(x + col, y + row, color)` for set bits `(7 - col)` of glyph row `row`. -/
theorem mem_ascii_draw_char (c x y : Int) (color : Nat) (px py : Int) (co : Nat) :
    (px, py, co) ∈ ascii_draw_char c x y color ↔
      ∃ r q : Nat, r < 8 ∧ q < 8 ∧
        ((ascii_get_char_bitmap c).getD r 0 &&& (1 <<< (7 - q)) != 0) = true ∧
        px = x + (q : Int) ∧ py = y + (r : Int) ∧ co = color := by
  rw [ascii_draw_char_eq_flatten]
  constructor
  · intro hmem
    rw [List.mem_flatten] at hmem
    obtain ⟨L, hL, hmemL⟩ := hmem
    rw [List.mem_map] at hL
    obtain ⟨r, hr, rfl⟩ := hL
    rw [List.mem_range] at hr
    rw [List.mem_map] at hmemL
    obtain ⟨q, hq, heq⟩ := hmemL
    rw [List.mem_filter, List.mem_range] at hq
    obtain ⟨hq8, hbit⟩ := hq
    simp only [Prod.mk.injEq] at heq
    exact ⟨r, q, hr, hq8, hbit, heq.1.symm, heq.2.1.symm, heq.2.2.symm⟩
  · rintro ⟨r, q, hr, hq, hbit, rfl, rfl, rfl⟩
    rw [List.mem_flatten]
    refine ⟨_, List.mem_map.2 ⟨r, List.mem_range.2 hr, rfl⟩, ?_⟩
    exact List.mem_map.2 ⟨q, List.mem_filter.2 ⟨List.mem_range.2 hq, hbit⟩, rfl⟩

/-- The trace of `ascii_draw_char` has no duplicate entries. -/
theorem nodup_ascii_draw_char (c x y : Int) (color : Nat) :
    (ascii_draw_char c x y color).Nodup := by
  rw [ascii_draw_char_eq_flatten, List.nodup_flatten]
  constructor
  · intro l hl
    simp only [List.mem_map] at hl
    obtain ⟨r, -, rfl⟩ := hl
    apply List.Nodup.map
    · intro a b hab
      simp only [Prod.mk.injEq] at hab
      omega
    · exact (List.nodup_range _).filter _
  · rw [List.pairwise_map]
    apply List.Pairwise.imp ?_ (List.pairwise_lt_range 8)
    intro r1 r2 hlt a ha1 ha2
    simp only [List.mem_map, List.mem_filter, List.mem_range] at ha1 ha2
    obtain ⟨q1, -, rfl⟩ := ha1
    obtain ⟨q2, -, heq⟩ := ha2
    simp only [Prod.mk.injEq] at heq
    omega

/-- C1: for every character, coordinates, color (and opaque user data, which
the embedding leaves implicit since it is merely forwarded), `ascii_draw_char`
invokes the pixel callback exactly once per set bit of the glyph returned by
`ascii_get_char_bitmap c` and never for cleared bits; the invocation for row
`r` and column `q` (bit `7 - q` of byte `r` set) passes coordinates
`(x + q, y + r)`, and the invocations occur in row-major order: rows top to
bottom and columns left to right within each row (the trace equals the
row-major enumeration of the set bits). -/
theorem claim_C1_draw_char_trace (c x y : Int) (color : Nat) :
    (ascii_draw_char c x y color =
      ((List.range 8).map (fun row : Nat =>
        ((List.range 8).filter
            (fun col : Nat =>
              (ascii_get_char_bitmap c).getD row 0 &&& (1 <<< (7 - col)) != 0)).map
          (fun col : Nat => (x + (col : Int), y + (row : Int), color)))).flatten) ∧
    (∀ r q : Nat, r < 8 → q < 8 →
      ((ascii_get_char_bitmap c).getD r 0 &&& (1 <<< (7 - q)) != 0) = true →
      (ascii_draw_char c x y color).count (x + (q : Int), y + (r : Int), color) = 1) ∧
    (∀ r q : Nat, r < 8 → q < 8 →
      ((ascii_get_char_bitmap c).getD r 0 &&& (1 <<< (7 - q)) != 0) = false →
      (x + (q : Int), y + (r : Int), color) ∉ ascii_draw_char c x y color) := by
  refine ⟨ascii_draw_char_eq_flatten c x y color, ?_, ?_⟩
  · intro r q hr hq hbit
    exact count_eq_one_of_nodup_of_mem _ _ (nodup_ascii_draw_char c x y color)
      ((mem_ascii_draw_char c x y color _ _ _).mpr ⟨r, q, hr, hq, hbit, rfl, rfl, rfl⟩)
  · intro r q hr hq hbit hmem
    obtain ⟨r2, q2, -, -, hbit2, h1, h2, -⟩ :=
      (mem_ascii_draw_char c x y color _ _ _).mp hmem
    have hq2 : q2 = q := by omega
    have hr2 : r2 = r := by omega
    rw [hq2, hr2, hbit] at hbit2
    exact Bool.false_ne_true hbit2

/-- Witness for C1 at the glyph for '0' drawn at the origin: bit 5 of row 0
(column 2) is set and produces exactly one callback, while bit 7 of row 0
(column 0) is clear and produces none. -/
theorem claim_C1_witness :
    (ascii_draw_char 48 0 0 1).count (0 + ((2 : Nat) : Int), 0 + ((0 : Nat) : Int), 1) = 1 ∧
    (0 + ((0 : Nat) : Int), 0 + ((0 : Nat) : Int), (1 : Nat)) ∉ ascii_draw_char 48 0 0 1 :=
  ⟨(claim_C1_draw_char_trace 48 0 0 1).2.1 0 2 (by decide) (by decide) (by decide),
   (claim_C1_draw_char_trace 48 0 0 1).2.2 0 0 (by decide) (by decide) (by decide)⟩

/-! ### Lookup (C3) -/

/-- C3: for every code outside `[ASCII_FIRST_CHAR, ASCII_LAST_CHAR) = [32, 127)`,
`ascii_get_char_bitmap` returns the fallback glyph at table index 0, the same
bitmap as `ascii_get_char_bitmap ASCII_FIRST_CHAR` (the space glyph), rather
than failing; for every code inside the range it returns the table entry at
index `c - ASCII_FIRST_CHAR`. The embedding is a pure function, so
determinism and absence of side effects hold by construction. -/
theorem claim_C3_lookup_fallback :
    (∀ c : Int, c < ASCII_FIRST_CHAR ∨ ASCII_LAST_CHAR ≤ c →
      ascii_get_char_bitmap c = ascii_get_char_bitmap ASCII_FIRST_CHAR) ∧
    ascii_get_char_bitmap ASCII_FIRST_CHAR = ascii_font.getD 0 [] ∧
    (∀ c : Int, ASCII_FIRST_CHAR ≤ c → c < ASCII_LAST_CHAR →
      ascii_get_char_bitmap c = ascii_font.getD (c - ASCII_FIRST_CHAR).toNat []) := by
  refine ⟨?_, by decide, ?_⟩
  · intro c hc
    rw [ascii_get_char_bitmap, if_pos hc]
    decide
  · intro c h1 h2
    rw [ascii_get_char_bitmap, if_neg]
    simp only [ASCII_FIRST_CHAR, ASCII_LAST_CHAR] at h1 h2 ⊢
    omega

/-- Witness for C3: code 200 is out of range and falls back to the space
glyph; code 48 is in range and resolves to table index 16. -/
theorem claim_C3_witness :
    ascii_get_char_bitmap 200 = ascii_get_char_bitmap ASCII_FIRST_CHAR ∧
    ascii_get_char_bitmap 48 = ascii_font.getD ((48 : Int) - ASCII_FIRST_CHAR).toNat [] :=
  ⟨claim_C3_lookup_fallback.1 200 (by decide),
   claim_C3_lookup_fallback.2.2 48 (by decide) (by decide)⟩

/-! ### Return value of `ascii_draw_text` (C4) -/

/-- On a text with no newline, the loop of `ascii_draw_text` advances the
cursor by `ASCII_FONT_WIDTH = 8` per character. -/
theorem drawTextLoop_no_newline (color : Nat) :
    ∀ (t : List Int) (sx x cy : Int) (acc : List (Int × Int × Nat)),
      (10 : Int) ∉ t → (drawTextLoop sx color t x cy acc).2 = x + 8 * (t.length : Int) := by
  intro t
  induction t with
  | nil => intro sx x cy acc _; simp [drawTextLoop]
  | cons ch rest ih =>
      intro sx x cy acc h
      have hch : ¬ch = 10 := fun hc => h (by simp [hc])
      simp only [drawTextLoop]
      rw [if_neg hch, ih sx _ cy _ (fun hm => h (List.mem_cons_of_mem _ hm))]
      simp only [ASCII_FONT_WIDTH, List.length_cons]
      push_cast
      ring

/-- After the last newline, the loop of `ascii_draw_text` ends at
`start_x + 8 *` (length of the trailing line). -/
theorem drawTextLoop_last_line (color : Nat) (b : List Int) (hb : (10 : Int) ∉ b) :
    ∀ (a : List Int) (sx x cy : Int) (acc : List (Int × Int × Nat)),
      (drawTextLoop sx color (a ++ 10 :: b) x cy acc).2 = sx + 8 * (b.length : Int) := by
  intro a
  induction a with
  | nil =>
      intro sx x cy acc
      rw [List.nil_append]
      simp only [drawTextLoop]
      rw [if_pos trivial]
      exact drawTextLoop_no_newline color b sx sx _ acc hb
  | cons ch a ih =>
      intro sx x cy acc
      rw [List.cons_append]
      by_cases hch : ch = 10
      · subst hch
        simp only [drawTextLoop]
        rw [if_pos trivial]
        exact ih sx sx _ acc
      · simp only [drawTextLoop]
        rw [if_neg hch]
        exact ih sx _ cy _

/-- C4: `ascii_draw_text` returns the final cursor x minus the starting x of
the last line processed, i.e. the pixel width of the trailing line only:
`8` per non-newline character after the last newline (so `0` when the text
ends with a newline, covered by `b = []`), and `8 * n` for single-line text
of `n` characters — not the maximum width across all lines. -/
theorem claim_C4_draw_text_returns_last_line (x y : Int) (color : Nat) :
    (∀ t : List Int, (10 : Int) ∉ t →
      (ascii_draw_text t x y color).2 = 8 * (t.length : Int)) ∧
    (∀ a b : List Int, (10 : Int) ∉ b →
      (ascii_draw_text (a ++ 10 :: b) x y color).2 = 8 * (b.length : Int)) := by
  constructor
  · intro t ht
    show (drawTextLoop x color t x y []).2 - x = 8 * (t.length : Int)
    rw [drawTextLoop_no_newline color t x x y [] ht]
    ring
  · intro a b hb
    show (drawTextLoop x color (a ++ 10 :: b) x y []).2 - x = 8 * (b.length : Int)
    rw [drawTextLoop_last_line color b hb a x x y []]
    ring

/-- Witness for C4: a two-character single line is 16 pixels wide, and a text
whose last line is two characters returns 16 regardless of the first line. -/
theorem claim_C4_witness :
    (ascii_draw_text [65, 66] 5 7 3).2 = 8 * (([65, 66] : List Int).length : Int) ∧
    (ascii_draw_text ([65] ++ 10 :: [66, 66]) 5 7 3).2
      = 8 * (([66, 66] : List Int).length : Int) :=
  ⟨(claim_C4_draw_text_returns_last_line 5 7 3).1 [65, 66] (by decide),
   (claim_C4_draw_text_returns_last_line 5 7 3).2 [65] [66, 66] (by decide)⟩

/-! ### Text metrics (C5, C6) -/

/-- Loop invariant value for `textWidthLoop`: the maximum, over the remaining
lines, of the line widths, where the current line already has running width
`lw`. -/
def maxLineWidth : List Int → Int → Int
  | [], lw => lw
  | ch :: rest, lw =>
    if ch = 10 then max lw (maxLineWidth rest 0)
    else maxLineWidth rest (lw + (ASCII_FONT_WIDTH : Int))

/-- The conditional in the source computes the maximum. -/
theorem ite_lt_eq_max (w lw : Int) : (if w < lw then lw else w) = max w lw := by
  rcases lt_or_ge w lw with h | h
  · rw [if_pos h, max_eq_right h.le]
  · rw [if_neg (not_lt.2 h), max_eq_left h]

/-- The loop of `ascii_text_width` computes the maximum of the running width
and the widths of the remaining lines. -/
theorem textWidthLoop_eq_max :
    ∀ (t : List Int) (w lw : Int), textWidthLoop t w lw = max w (maxLineWidth t lw) := by
  intro t
  induction t with
  | nil => intro w lw; simp only [textWidthLoop, maxLineWidth]; exact ite_lt_eq_max w lw
  | cons ch rest ih =>
      intro w lw
      by_cases hch : ch = 10
      · subst hch
        simp only [textWidthLoop, maxLineWidth]
        rw [if_pos trivial, if_pos trivial, ih, ite_lt_eq_max, max_assoc]
      · simp only [textWidthLoop, maxLineWidth]
        rw [if_neg hch, if_neg hch, ih]

/-- A line with no newline contributes `8` pixels per character. -/
theorem maxLineWidth_no_newline :
    ∀ (t : List Int), (10 : Int) ∉ t → ∀ lw : Int,
      maxLineWidth t lw = lw + 8 * (t.length : Int) := by
  intro t
  induction t with
  | nil => intro _ lw; simp [maxLineWidth]
  | cons ch rest ih =>
      intro h lw
      have hch : ¬ch = 10 := fun hc => h (by simp [hc])
      simp only [maxLineWidth]
      rw [if_neg hch, ih (fun hm => h (List.mem_cons_of_mem _ hm))]
      simp only [ASCII_FONT_WIDTH, List.length_cons]
      push_cast
      ring

/-- Splitting off the first line: the loop value over `a ++ 10 :: b` (with no
newline in `a`) is the maximum of the first line's width and the rest. -/
theorem maxLineWidth_append (b : List Int) :
    ∀ (a : List Int), (10 : Int) ∉ a → ∀ lw : Int,
      maxLineWidth (a ++ 10 :: b) lw
        = max (lw + 8 * (a.length : Int)) (maxLineWidth b 0) := by
  intro a
  induction a with
  | nil =>
      intro _ lw
      rw [List.nil_append]
      simp only [maxLineWidth]
      rw [if_pos trivial]
      simp
  | cons ch a ih =>
      intro h lw
      have hch : ¬ch = 10 := fun hc => h (by simp [hc])
      rw [List.cons_append]
      simp only [maxLineWidth]
      rw [if_neg hch, ih (fun hm => h (List.mem_cons_of_mem _ hm))]
      congr 1
      simp only [ASCII_FONT_WIDTH, List.length_cons]
      push_cast
      ring

/-- The loop invariant value is nonnegative whenever the running width is. -/
theorem maxLineWidth_nonneg : ∀ (t : List Int) (lw : Int), 0 ≤ lw → 0 ≤ maxLineWidth t lw := by
  intro t
  induction t with
  | nil => intro lw h; simpa [maxLineWidth] using h
  | cons ch rest ih =>
      intro lw h
      by_cases hch : ch = 10
      · subst hch
        simp only [maxLineWidth]
        rw [if_pos trivial]
        exact le_max_of_le_left h
      · simp only [maxLineWidth]
        rw [if_neg hch]
        exact ih _ (add_nonneg h (Int.natCast_nonneg _))

/-- C5: `ascii_text_width` returns the maximum line width in pixels across
all lines, each non-newline character contributing `ASCII_FONT_WIDTH = 8`
pixels and a newline resetting the running line width: a single line of `n`
characters measures `8 * n`, prepending a line of `m` characters and a
newline yields the maximum of `8 * m` and the rest, the empty text measures
`0`, `"AB"` measures `16` and `"A\nBB"` measures `16`. -/
theorem claim_C5_text_width_max :
    ascii_text_width [] = 0 ∧
    (∀ t : List Int, (10 : Int) ∉ t → ascii_text_width t = 8 * (t.length : Int)) ∧
    (∀ a b : List Int, (10 : Int) ∉ a →
      ascii_text_width (a ++ 10 :: b) = max (8 * (a.length : Int)) (ascii_text_width b)) ∧
    ascii_text_width [65, 66] = 16 ∧
    ascii_text_width [65, 10, 66, 66] = 16 := by
  refine ⟨by decide, ?_, ?_, by decide, by decide⟩
  · intro t ht
    rw [ascii_text_width, textWidthLoop_eq_max, maxLineWidth_no_newline t ht 0, zero_add]
    exact max_eq_right (mul_nonneg (by norm_num) (Int.natCast_nonneg _))
  · intro a b ha
    rw [ascii_text_width, textWidthLoop_eq_max, maxLineWidth_append b a ha 0, zero_add]
    rw [ascii_text_width, textWidthLoop_eq_max,
      max_eq_right (maxLineWidth_nonneg b 0 le_rfl)]
    exact max_eq_right
      (le_max_of_le_left (mul_nonneg (by norm_num) (Int.natCast_nonneg _)))

/-- Witness for C5: the single-line and line-splitting parts at "AB" and
"A\nBB". -/
theorem claim_C5_witness :
    ascii_text_width [65, 66] = 8 * (([65, 66] : List Int).length : Int) ∧
    ascii_text_width ([65] ++ 10 :: [66, 66])
      = max (8 * (([65] : List Int).length : Int)) (ascii_text_width [66, 66]) :=
  ⟨claim_C5_text_width_max.2.1 [65, 66] (by decide),
   claim_C5_text_width_max.2.2.1 [65] [66, 66] (by decide)⟩

/-- The loop of `ascii_text_height` adds `8` per newline encountered. -/
theorem textHeightLoop_eq :
    ∀ (t : List Int) (h : Int), textHeightLoop t h = h + 8 * ((t.count 10 : Nat) : Int) := by
  intro t
  induction t with
  | nil => intro h; simp [textHeightLoop]
  | cons ch rest ih =>
      intro h
      by_cases hch : ch = 10
      · subst hch
        simp only [textHeightLoop]
        rw [if_pos trivial, ih, List.count_cons_self]
        simp only [ASCII_FONT_HEIGHT]
        push_cast
        ring
      · simp only [textHeightLoop]
        rw [if_neg hch, ih, List.count_cons_of_ne (fun hc => hch hc.symm)]

/-- C6: `ascii_text_height` returns `ASCII_FONT_HEIGHT` plus
`ASCII_FONT_HEIGHT` per newline character, regardless of whether the trailing
segment after the last newline is empty (the formula counts newlines only);
the empty text measures `8` and `"A\nB\nC"` measures `24`. -/
theorem claim_C6_text_height :
    (∀ t : List Int, ascii_text_height t = 8 + 8 * ((t.count 10 : Nat) : Int)) ∧
    ascii_text_height [] = 8 ∧
    ascii_text_height [65, 10, 66, 10, 67] = 24 := by
  refine ⟨?_, by decide, by decide⟩
  intro t
  rw [ascii_text_height, textHeightLoop_eq]
  norm_num [ASCII_FONT_HEIGHT]

/-! ### Write-sequence semantics of the buffer blitters -/

/-- Applying an empty write sequence changes nothing. -/
theorem applyWrites_nil (buf : Int → Nat) : applyWrites [] buf = buf := rfl

/-- Applying a write sequence starting with `p` performs `p` first. -/
theorem applyWrites_cons (p : Int × Nat) (ws : List (Int × Nat)) (buf : Int → Nat) :
    applyWrites (p :: ws) buf = applyWrites ws (fun j => if j = p.1 then p.2 else buf j) := rfl

/-- Write sequences compose by concatenation. -/
theorem applyWrites_append (l1 l2 : List (Int × Nat)) (buf : Int → Nat) :
    applyWrites (l1 ++ l2) buf = applyWrites l2 (applyWrites l1 buf) := by
  simp [applyWrites, List.foldl_append]

/-- A cell no write targets keeps its value. -/
theorem applyWrites_eq_of_not_written :
    ∀ (ws : List (Int × Nat)) (buf : Int → Nat) (j : Int),
      (∀ p ∈ ws, p.1 ≠ j) → applyWrites ws buf j = buf j := by
  intro ws
  induction ws with
  | nil => intro buf j _; rfl
  | cons p ws ih =>
      intro buf j h
      rw [applyWrites_cons, ih _ j (fun q hq => h q (List.mem_cons_of_mem _ hq))]
      exact if_neg (fun hj => h p (List.mem_cons_self _ _) hj.symm)

/-- Applying the same writes to buffers that agree outside the written cells
gives the same result. -/
theorem applyWrites_congr_outside :
    ∀ (ws : List (Int × Nat)) (b1 b2 : Int → Nat),
      (∀ j : Int, (∀ p ∈ ws, p.1 ≠ j) → b1 j = b2 j) →
      applyWrites ws b1 = applyWrites ws b2 := by
  intro ws
  induction ws with
  | nil =>
      intro b1 b2 h
      funext j
      exact h j (fun p hp => absurd hp (List.not_mem_nil p))
  | cons p ws ih =>
      intro b1 b2 h
      rw [applyWrites_cons, applyWrites_cons]
      apply ih
      intro j hj
      by_cases hjp : j = p.1
      · simp [hjp]
      · simp only [if_neg hjp]
        apply h j
        intro q hq
        rcases List.mem_cons.1 hq with rfl | hq2
        · exact fun he => hjp he.symm
        · exact hj q hq2

/-- A write sequence is idempotent: every written cell receives the same last
value both times, and unwritten cells are untouched. -/
theorem applyWrites_idem (ws : List (Int × Nat)) (buf : Int → Nat) :
    applyWrites ws (applyWrites ws buf) = applyWrites ws buf :=
  applyWrites_congr_outside ws _ _ (fun j hj => applyWrites_eq_of_not_written ws buf j hj)

/-- The column loop of the monochrome blitter performs exactly its write
sequence. -/
theorem mono_blit_cols_eq (rowbits : Nat) (bw x py : Int) (color : Nat) :
    ∀ (fuel col : Nat) (buf : Int → Nat),
      mono_blit_cols rowbits bw x py color col fuel buf
        = applyWrites (mono_writes_cols rowbits bw x py color col fuel) buf := by
  intro fuel
  induction fuel with
  | zero => intro col buf; rfl
  | succ fuel ih =>
      intro col buf
      simp only [mono_blit_cols, mono_writes_cols]
      by_cases h : bw ≤ x + (col : Int)
      · rw [if_pos h, if_pos h, applyWrites_nil]
      · rw [if_neg h, if_neg h, applyWrites_append, ih]
        by_cases hb : (rowbits &&& (1 <<< (7 - col)) != 0) = true
        · rw [if_pos hb, if_pos hb]; rfl
        · rw [if_neg hb, if_neg hb]; rfl

/-- The row loop of the monochrome blitter performs exactly its write
sequence. -/
theorem mono_blit_rows_eq (bitmap : List Nat) (bw bh x y : Int) (color : Nat) :
    ∀ (fuel row : Nat) (buf : Int → Nat),
      mono_blit_rows bitmap bw bh x y color row fuel buf
        = applyWrites (mono_writes_rows bitmap bw bh x y color row fuel) buf := by
  intro fuel
  induction fuel with
  | zero => intro row buf; rfl
  | succ fuel ih =>
      intro row buf
      simp only [mono_blit_rows, mono_writes_rows]
      by_cases h : bh ≤ y + (row : Int)
      · rw [if_pos h, if_pos h, applyWrites_nil]
      · rw [if_neg h, if_neg h, applyWrites_append, ih, mono_blit_cols_eq]

/-- `ascii_draw_char_to_mono_buffer` performs exactly its write sequence. -/
theorem ascii_draw_char_to_mono_buffer_eq (c : Int) (buf : Int → Nat)
    (bw bh x y : Int) (color : Nat) :
    ascii_draw_char_to_mono_buffer c buf bw bh x y color
      = applyWrites (mono_writes c bw bh x y color) buf := by
  rw [ascii_draw_char_to_mono_buffer, mono_writes]
  by_cases h : x < 0 ∨ y < 0 ∨ bw ≤ x ∨ bh ≤ y
  · rw [if_pos h, if_pos h, applyWrites_nil]
  · rw [if_neg h, if_neg h, mono_blit_rows_eq]

/-- The RGB565 column loop coincides with the monochrome one. -/
theorem rgb565_blit_cols_eq_mono (rowbits : Nat) (bw x py : Int) (color : Nat) :
    ∀ (fuel col : Nat) (buf : Int → Nat),
      rgb565_blit_cols rowbits bw x py color col fuel buf
        = mono_blit_cols rowbits bw x py color col fuel buf := by
  intro fuel
  induction fuel with
  | zero => intro col buf; rfl
  | succ fuel ih =>
      intro col buf
      simp only [rgb565_blit_cols, mono_blit_cols]
      by_cases h : bw ≤ x + (col : Int)
      · rw [if_pos h, if_pos h]
      · rw [if_neg h, if_neg h, ih]

/-- The RGB565 row loop coincides with the monochrome one. -/
theorem rgb565_blit_rows_eq_mono (bitmap : List Nat) (bw bh x y : Int) (color : Nat) :
    ∀ (fuel row : Nat) (buf : Int → Nat),
      rgb565_blit_rows bitmap bw bh x y color row fuel buf
        = mono_blit_rows bitmap bw bh x y color row fuel buf := by
  intro fuel
  induction fuel with
  | zero => intro row buf; rfl
  | succ fuel ih =>
      intro row buf
      simp only [rgb565_blit_rows, mono_blit_rows]
      by_cases h : bh ≤ y + (row : Int)
      · rw [if_pos h, if_pos h]
      · rw [if_neg h, if_neg h, ih, rgb565_blit_cols_eq_mono]

/-- The two buffer-draw variants compute identical buffer transformations. -/
theorem rgb565_draw_eq_mono (c : Int) (buf : Int → Nat) (bw bh x y : Int) (color : Nat) :
    ascii_draw_char_to_rgb565_buffer c buf bw bh x y color
      = ascii_draw_char_to_mono_buffer c buf bw bh x y color := by
  rw [ascii_draw_char_to_rgb565_buffer, ascii_draw_char_to_mono_buffer]
  by_cases h : x < 0 ∨ y < 0 ∨ bw ≤ x ∨ bh ≤ y
  · rw [if_pos h, if_pos h]
  · rw [if_neg h, if_neg h, rgb565_blit_rows_eq_mono]

/-- The RGB565 write sequence of a column coincides with the monochrome one. -/
theorem rgb565_writes_cols_eq_mono (rowbits : Nat) (bw x py : Int) (color : Nat) :
    ∀ (fuel col : Nat),
      rgb565_writes_cols rowbits bw x py color col fuel
        = mono_writes_cols rowbits bw x py color col fuel := by
  intro fuel
  induction fuel with
  | zero => intro col; rfl
  | succ fuel ih =>
      intro col
      simp only [rgb565_writes_cols, mono_writes_cols]
      rw [ih]

/-- The RGB565 write sequence of a row block coincides with the monochrome
one. -/
theorem rgb565_writes_rows_eq_mono (bitmap : List Nat) (bw bh x y : Int) (color : Nat) :
    ∀ (fuel row : Nat),
      rgb565_writes_rows bitmap bw bh x y color row fuel
        = mono_writes_rows bitmap bw bh x y color row fuel := by
  intro fuel
  induction fuel with
  | zero => intro row; rfl
  | succ fuel ih =>
      intro row
      simp only [rgb565_writes_rows, mono_writes_rows]
      rw [ih, rgb565_writes_cols_eq_mono]

/-- The two buffer-draw variants perform identical write sequences. -/
theorem rgb565_writes_eq_mono (c : Int) (bw bh x y : Int) (color : Nat) :
    rgb565_writes c bw bh x y color = mono_writes c bw bh x y color := by
  rw [rgb565_writes, mono_writes]
  by_cases h : x < 0 ∨ y < 0 ∨ bw ≤ x ∨ bh ≤ y
  · rw [if_pos h, if_pos h]
  · rw [if_neg h, if_neg h, rgb565_writes_rows_eq_mono]

/-- Every write of the column loop targets a set-bit column strictly left of
`bw`, at flat index `py * bw + (x + col)` with value `color`. -/
theorem mem_mono_writes_cols (rowbits : Nat) (bw x py : Int) (color : Nat) :
    ∀ (fuel col : Nat) (p : Int × Nat),
      p ∈ mono_writes_cols rowbits bw x py color col fuel →
      ∃ q : Nat, col ≤ q ∧ q < col + fuel ∧
        (rowbits &&& (1 <<< (7 - q)) != 0) = true ∧
        x + (q : Int) < bw ∧ p = (py * bw + (x + (q : Int)), color) := by
  intro fuel
  induction fuel with
  | zero => intro col p hp; exact absurd hp (List.not_mem_nil p)
  | succ fuel ih =>
      intro col p hp
      simp only [mono_writes_cols] at hp
      by_cases h : bw ≤ x + (col : Int)
      · rw [if_pos h] at hp; exact absurd hp (List.not_mem_nil p)
      · rw [if_neg h] at hp
        rcases List.mem_append.1 hp with h1 | h2
        · by_cases hb : (rowbits &&& (1 <<< (7 - col)) != 0) = true
          · rw [if_pos hb, List.mem_singleton] at h1
            exact ⟨col, le_refl col, by omega, hb, not_le.1 h, h1⟩
          · rw [if_neg hb] at h1
            exact absurd h1 (List.not_mem_nil p)
        · obtain ⟨q, hq1, hq2, hq3, hq4, hq5⟩ := ih (col + 1) p h2
          exact ⟨q, by omega, by omega, hq3, hq4, hq5⟩

/-- Every write of the row loop targets a set bit of the glyph inside the
bottom/right clip bounds. -/
theorem mem_mono_writes_rows (bitmap : List Nat) (bw bh x y : Int) (color : Nat) :
    ∀ (fuel row : Nat) (p : Int × Nat),
      p ∈ mono_writes_rows bitmap bw bh x y color row fuel →
      ∃ r q : Nat, row ≤ r ∧ r < row + fuel ∧ q < 8 ∧
        y + (r : Int) < bh ∧ x + (q : Int) < bw ∧
        (bitmap.getD r 0 &&& (1 <<< (7 - q)) != 0) = true ∧
        p = ((y + (r : Int)) * bw + (x + (q : Int)), color) := by
  intro fuel
  induction fuel with
  | zero => intro row p hp; exact absurd hp (List.not_mem_nil p)
  | succ fuel ih =>
      intro row p hp
      simp only [mono_writes_rows] at hp
      by_cases h : bh ≤ y + (row : Int)
      · rw [if_pos h] at hp; exact absurd hp (List.not_mem_nil p)
      · rw [if_neg h] at hp
        rcases List.mem_append.1 hp with h1 | h2
        · obtain ⟨q, -, hq2, hq3, hq4, hq5⟩ :=
            mem_mono_writes_cols (bitmap.getD row 0) bw x (y + (row : Int)) color
              ASCII_FONT_WIDTH 0 p h1
          have hq8 : q < 8 := by
            have := hq2
            simp only [ASCII_FONT_WIDTH] at this
            omega
          exact ⟨row, q, le_refl row, by omega, hq8, not_le.1 h, hq4, hq3, hq5⟩
        · obtain ⟨r, q, hr1, hr2, hq, hyb, hxb, hbit, hp5⟩ := ih (row + 1) p h2
          exact ⟨r, q, by omega, by omega, hq, hyb, hxb, hbit, hp5⟩

/-- Every write of `ascii_draw_char_to_mono_buffer` lands on a set bit of the
glyph, strictly inside the clip bounds, with a nonnegative origin. -/
theorem mem_mono_writes (c : Int) (bw bh x y : Int) (color : Nat) (p : Int × Nat)
    (hp : p ∈ mono_writes c bw bh x y color) :
    0 ≤ x ∧ 0 ≤ y ∧
    ∃ r q : Nat, r < 8 ∧ q < 8 ∧
      y + (r : Int) < bh ∧ x + (q : Int) < bw ∧
      ((ascii_get_char_bitmap c).getD r 0 &&& (1 <<< (7 - q)) != 0) = true ∧
      p = ((y + (r : Int)) * bw + (x + (q : Int)), color) := by
  rw [mono_writes] at hp
  by_cases h : x < 0 ∨ y < 0 ∨ bw ≤ x ∨ bh ≤ y
  · rw [if_pos h] at hp; exact absurd hp (List.not_mem_nil p)
  · rw [if_neg h] at hp
    push_neg at h
    obtain ⟨r, q, -, hr2, hq, hyb, hxb, hbit, hp5⟩ :=
      mem_mono_writes_rows (ascii_get_char_bitmap c) bw bh x y color ASCII_FONT_HEIGHT 0 p hp
    have hr8 : r < 8 := by
      have := hr2
      simp only [ASCII_FONT_HEIGHT] at this
      omega
    exact ⟨by omega, by omega, r, q, hr8, hq, hyb, hxb, hbit, hp5⟩

/-! ### The all-zero glyph -/

/-- Any row of the all-zero glyph reads as zero (also past the end, where the
default applies). -/
theorem getD_zeroGlyph (r : Nat) :
    ([0x00, 0x00, 0x00, 0x00, 0x00, 0x00, 0x00, 0x00] : List Nat).getD r 0 = 0 := by
  rcases r with _ | _ | _ | _ | _ | _ | _ | _ | r <;> rfl

/-- Every font-table entry other than index 16 (the glyph for '0') is the
all-zero glyph. -/
theorem font_zero_off_sixteen :
    ∀ i : Nat, i < 95 → i ≠ 16 →
      ascii_font.getD i [] = [0x00, 0x00, 0x00, 0x00, 0x00, 0x00, 0x00, 0x00] := by
  decide

/-- For every code other than 48 ('0'), the lookup yields the all-zero
glyph: in-range codes hit a zero table entry and out-of-range codes fall back
to the (zero) space glyph. -/
theorem bitmap_eq_zero_of_ne (c : Int) (hc : c ≠ 48) :
    ascii_get_char_bitmap c = [0x00, 0x00, 0x00, 0x00, 0x00, 0x00, 0x00, 0x00] := by
  rw [ascii_get_char_bitmap]
  by_cases h : c < ASCII_FIRST_CHAR ∨ ASCII_LAST_CHAR ≤ c
  · rw [if_pos h]; decide
  · rw [if_neg h]
    simp only [ASCII_FIRST_CHAR, ASCII_LAST_CHAR] at h ⊢
    push_neg at h
    apply font_zero_off_sixteen
    · omega
    · omega

/-- A glyph whose rows all read zero produces no writes. -/
theorem mono_writes_nil_of_zero (c : Int)
    (hz : ∀ r : Nat, (ascii_get_char_bitmap c).getD r 0 = 0)
    (bw bh x y : Int) (color : Nat) :
    mono_writes c bw bh x y color = [] := by
  rcases hl : mono_writes c bw bh x y color with _ | ⟨p, l⟩
  · rfl
  · exfalso
    have hp : p ∈ mono_writes c bw bh x y color := by
      rw [hl]; exact List.mem_cons_self p l
    obtain ⟨-, -, r, q, -, -, -, -, hbit, -⟩ := mem_mono_writes c bw bh x y color p hp
    rw [hz r, Nat.zero_and] at hbit
    simp at hbit

/-- Drawing a glyph whose rows all read zero leaves the monochrome buffer
unchanged. -/
theorem mono_unchanged_of_zero (c : Int)
    (hz : ∀ r : Nat, (ascii_get_char_bitmap c).getD r 0 = 0)
    (buf : Int → Nat) (bw bh x y : Int) (color : Nat) :
    ascii_draw_char_to_mono_buffer c buf bw bh x y color = buf := by
  rw [ascii_draw_char_to_mono_buffer_eq, mono_writes_nil_of_zero c hz, applyWrites_nil]

/-! ### Claims about the buffer blitters (C2, C7, C8, C9) -/

/-- C2: for every character, buffer, dimensions, origin and color, the mono
and RGB565 buffer draws write only to indices `py * buf_width + px` with
`0 ≤ px < buf_width` and `0 ≤ py < buf_height`: any cell whose value changed
decomposes that way (the origin check rejects negative or out-of-range
origins and the row/column loops stop at the buffer bounds). -/
theorem claim_C2_buffer_writes_in_bounds
    (c : Int) (buf : Int → Nat) (bw bh x y : Int) (color : Nat) (i : Int)
    (hchange : ascii_draw_char_to_mono_buffer c buf bw bh x y color i ≠ buf i ∨
               ascii_draw_char_to_rgb565_buffer c buf bw bh x y color i ≠ buf i) :
    ∃ px py : Int, 0 ≤ px ∧ px < bw ∧ 0 ≤ py ∧ py < bh ∧ i = py * bw + px := by
  have hmono : ascii_draw_char_to_mono_buffer c buf bw bh x y color i ≠ buf i := by
    rcases hchange with h | h
    · exact h
    · rw [rgb565_draw_eq_mono] at h; exact h
  rw [ascii_draw_char_to_mono_buffer_eq] at hmono
  by_cases hw : ∀ p ∈ mono_writes c bw bh x y color, p.1 ≠ i
  · exact absurd (applyWrites_eq_of_not_written _ buf i hw) hmono
  · push_neg at hw
    obtain ⟨p, hp, hpi⟩ := hw
    obtain ⟨hx0, hy0, r, q, -, -, hyb, hxb, -, hpe⟩ := mem_mono_writes c bw bh x y color p hp
    refine ⟨x + (q : Int), y + (r : Int), by omega, hxb, by omega, hyb, ?_⟩
    rw [← hpi, hpe]

/-- Witness for C2: drawing '0' at the origin of an 8x8 buffer changes flat
index 2, which therefore decomposes as an in-bounds cell. -/
theorem claim_C2_witness :
    ∃ px py : Int, 0 ≤ px ∧ px < 8 ∧ 0 ≤ py ∧ py < 8 ∧ (2 : Int) = py * 8 + px :=
  claim_C2_buffer_writes_in_bounds 48 (fun _ => 0) 8 8 0 0 1 2 (Or.inl (by decide))

/-- C7: for both buffer draws, (1) an origin failing the bounds check
(`x < 0`, `y < 0`, `x ≥ buf_width` or `y ≥ buf_height`) makes the call a
no-op; (2) every cell that is not the image of a set glyph bit keeps its
previous value (cells under cleared bits and cells outside the footprint);
(3) a glyph with no bits set leaves the buffer entirely unchanged. -/
theorem claim_C7_frame_effect (c : Int) (buf : Int → Nat) (bw bh x y : Int) (color : Nat) :
    ((x < 0 ∨ y < 0 ∨ bw ≤ x ∨ bh ≤ y) →
      ascii_draw_char_to_mono_buffer c buf bw bh x y color = buf ∧
      ascii_draw_char_to_rgb565_buffer c buf bw bh x y color = buf) ∧
    (∀ i : Int,
      (∀ r : Nat, r < 8 → ∀ q : Nat, q < 8 →
        ((ascii_get_char_bitmap c).getD r 0 &&& (1 <<< (7 - q)) != 0) = true →
        i ≠ (y + (r : Int)) * bw + (x + (q : Int))) →
      ascii_draw_char_to_mono_buffer c buf bw bh x y color i = buf i ∧
      ascii_draw_char_to_rgb565_buffer c buf bw bh x y color i = buf i) ∧
    ((∀ r : Nat, (ascii_get_char_bitmap c).getD r 0 = 0) →
      ascii_draw_char_to_mono_buffer c buf bw bh x y color = buf ∧
      ascii_draw_char_to_rgb565_buffer c buf bw bh x y color = buf) := by
  refine ⟨?_, ?_, ?_⟩
  · intro h
    constructor
    · rw [ascii_draw_char_to_mono_buffer, if_pos h]
    · rw [ascii_draw_char_to_rgb565_buffer, if_pos h]
  · intro i hi
    have hm : ascii_draw_char_to_mono_buffer c buf bw bh x y color i = buf i := by
      rw [ascii_draw_char_to_mono_buffer_eq]
      apply applyWrites_eq_of_not_written
      intro p hp
      obtain ⟨-, -, r, q, hr, hq, -, -, hbit, hpe⟩ := mem_mono_writes c bw bh x y color p hp
      rw [hpe]
      exact fun he => hi r hr q hq hbit he.symm
    exact ⟨hm, by rw [rgb565_draw_eq_mono]; exact hm⟩
  · intro hz
    have hm := mono_unchanged_of_zero c hz buf bw bh x y color
    exact ⟨hm, by rw [rgb565_draw_eq_mono]; exact hm⟩

/-- Witness for C7: an out-of-range origin is a no-op, an untouched cell of an
in-bounds draw keeps its value, and a character with an all-zero glyph leaves
the buffer unchanged. -/
theorem claim_C7_witness :
    ascii_draw_char_to_mono_buffer 48 (fun _ => 0) 8 8 (-1) 0 1 = (fun _ => 0) ∧
    ascii_draw_char_to_mono_buffer 48 (fun _ => 0) 8 8 0 0 1 0 = (fun _ : Int => (0 : Nat)) 0 ∧
    ascii_draw_char_to_rgb565_buffer 65 (fun _ => 0) 8 8 0 0 1 = (fun _ => 0) := by
  refine ⟨((claim_C7_frame_effect 48 (fun _ => 0) 8 8 (-1) 0 1).1 (by decide)).1,
          ((claim_C7_frame_effect 48 (fun _ => 0) 8 8 0 0 1).2.1 0 (by decide)).1,
          ((claim_C7_frame_effect 65 (fun _ => 0) 8 8 0 0 1).2.2 ?_).2⟩
  intro r
  rw [bitmap_eq_zero_of_ne 65 (by decide)]
  exact getD_zeroGlyph r

/-- C8: both buffer draws are idempotent: calling the same draw twice in
succession with the same arguments leaves the buffer as after one call. -/
theorem claim_C8_idempotent (c : Int) (buf : Int → Nat) (bw bh x y : Int) (color : Nat) :
    ascii_draw_char_to_mono_buffer c
        (ascii_draw_char_to_mono_buffer c buf bw bh x y color) bw bh x y color
      = ascii_draw_char_to_mono_buffer c buf bw bh x y color ∧
    ascii_draw_char_to_rgb565_buffer c
        (ascii_draw_char_to_rgb565_buffer c buf bw bh x y color) bw bh x y color
      = ascii_draw_char_to_rgb565_buffer c buf bw bh x y color := by
  have hm : ascii_draw_char_to_mono_buffer c
      (ascii_draw_char_to_mono_buffer c buf bw bh x y color) bw bh x y color
      = ascii_draw_char_to_mono_buffer c buf bw bh x y color := by
    rw [ascii_draw_char_to_mono_buffer_eq c
        (ascii_draw_char_to_mono_buffer c buf bw bh x y color),
      ascii_draw_char_to_mono_buffer_eq c buf]
    exact applyWrites_idem _ _
  refine ⟨hm, ?_⟩
  simp only [rgb565_draw_eq_mono]
  exact hm

/-- C9: the mono and RGB565 buffer draws are semantically identical up to the
pixel element type: for all arguments they compute the same buffer
transformation and perform the same write sequence (same cells, same color
values, same order); only the element width differs in the source. -/
theorem claim_C9_mono_rgb565_same (c : Int) (bw bh x y : Int) (color : Nat) :
    (∀ buf : Int → Nat,
      ascii_draw_char_to_mono_buffer c buf bw bh x y color
        = ascii_draw_char_to_rgb565_buffer c buf bw bh x y color) ∧
    mono_writes c bw bh x y color = rgb565_writes c bw bh x y color :=
  ⟨fun buf => (rgb565_draw_eq_mono c buf bw bh x y color).symm,
   (rgb565_writes_eq_mono c bw bh x y color).symm⟩

/-! ### The shipped font table (C10) -/

/-- C10: in the shipped glyph table every glyph except the one for '0'
(index 16, rows `0x3E 0x7F 0x6B 0x6B 0x6B 0x6B 0x7F 0x3E`) is the all-zero
bitmap; consequently, for every character other than '0', `ascii_draw_char`
invokes the pixel callback zero times and both buffer draws leave the buffer
unchanged. -/
theorem claim_C10_font_only_zero_glyph :
    (∀ i : Nat, i < 95 → i ≠ 16 →
      ascii_font.getD i [] = [0x00, 0x00, 0x00, 0x00, 0x00, 0x00, 0x00, 0x00]) ∧
    ascii_font.getD 16 [] = [0x3E, 0x7F, 0x6B, 0x6B, 0x6B, 0x6B, 0x7F, 0x3E] ∧
    (∀ c : Int, c ≠ 48 → ∀ (x y : Int) (color : Nat) (buf : Int → Nat) (bw bh : Int),
      ascii_draw_char c x y color = [] ∧
      ascii_draw_char_to_mono_buffer c buf bw bh x y color = buf ∧
      ascii_draw_char_to_rgb565_buffer c buf bw bh x y color = buf) := by
  refine ⟨font_zero_off_sixteen, by decide, ?_⟩
  intro c hc x y color buf bw bh
  have hz : ∀ r : Nat, (ascii_get_char_bitmap c).getD r 0 = 0 := by
    intro r
    rw [bitmap_eq_zero_of_ne c hc]
    exact getD_zeroGlyph r
  refine ⟨?_, mono_unchanged_of_zero c hz buf bw bh x y color,
    by rw [rgb565_draw_eq_mono]; exact mono_unchanged_of_zero c hz buf bw bh x y color⟩
  rw [ascii_draw_char_eq_flatten]
  have hfil : ∀ row : Nat,
      (List.range 8).filter (fun col : Nat =>
        (ascii_get_char_bitmap c).getD row 0 &&& (1 <<< (7 - col)) != 0) = [] := by
    intro row
    rw [List.filter_eq_nil_iff]
    intro a _
    rw [hz row, Nat.zero_and]
    simp
  rw [List.flatten_eq_nil_iff]
  intro l hl
  rw [List.mem_map] at hl
  obtain ⟨row, -, rfl⟩ := hl
  rw [hfil row, List.map_nil]

/-- Witness for C10: the character 'A' (code 65) produces an empty callback
trace and leaves a monochrome buffer unchanged. -/
theorem claim_C10_witness :
    ascii_draw_char 65 3 4 2 = [] ∧
    ascii_draw_char_to_mono_buffer 65 (fun _ => 5) 8 8 0 0 1 = (fun _ => 5) :=
  ⟨(claim_C10_font_only_zero_glyph.2.2 65 (by decide) 3 4 2 (fun _ => 5) 8 8).1,
   (claim_C10_font_only_zero_glyph.2.2 65 (by decide) 0 0 1 (fun _ => 5) 8 8).2.1⟩

end EmbeddedAscii
